import Mathlib

/-!
Shallow embedding of `src/dc_chunker.py` (datacube-utilities).

Numbers that the Python code manipulates as floats are modelled with `ℚ`
(exact arithmetic; the spec's properties are stated "floating-point rounding
aside").  Python exceptions are modelled with an explicit error type and
`Except`; Python `None` arguments with `Option`.  Timestamps are modelled as
integers (any linearly ordered value works for the sorting/chunking logic);
datetimes, of which the grouping functions only inspect the `year` and
`month` fields, are modelled by a structure with those two fields.
-/

namespace DcChunker

/-- The Python exceptions that the embedded functions can raise. -/
inductive PyErr where
  | assertionError
  | zeroDivisionError
  | indexError
  | valueError
  deriving DecidableEq, Repr

/-- One chunk descriptor produced by `create_geographic_chunks`: the dict
`{'longitude': ..., 'latitude': ...}` where `longitude` is the original
input sequence object and `latitude` a freshly built pair. -/
structure Chunk where
  longitude : List ℚ
  latitude : ℚ × ℚ
  deriving DecidableEq, Repr

deriving instance DecidableEq for Except

/-- Python truthiness of an optional sequence argument: `None` and the empty
sequence are falsy, any non-empty sequence is truthy. -/
def pyTruthy : Option (List ℚ) → Bool
  | none => false
  | some xs => !xs.isEmpty

/-- `create_geographic_chunks(longitude, latitude, geographic_chunk_size)`
from `src/dc_chunker.py` lines 8–36:
`assert latitude and longitude`; `square_area = (lat[1]-lat[0])*(lon[1]-lon[0])`;
`geographic_chunks = math.ceil(square_area / geographic_chunk_size)`;
`latitude_chunk_size = (lat[1]-lat[0]) / geographic_chunks` (a Python
`ZeroDivisionError` when `geographic_chunks == 0`); latitude bands
`(lat[0] + w*i, lat[0] + w*(i+1))` for `i in range(geographic_chunks)`
(empty for a non-positive count, like Python `range`); each result dict
carries the original `longitude` object. -/
def create_geographic_chunks (longitude latitude : Option (List ℚ))
    (geographic_chunk_size : ℚ) : Except PyErr (List Chunk) :=
  if !(pyTruthy latitude && pyTruthy longitude) then .error .assertionError else
  let lat := latitude.getD []
  let lon := longitude.getD []
  match lat.get? 0, lat.get? 1, lon.get? 0, lon.get? 1 with
  | some lat0, some lat1, some lon0, some lon1 =>
    if geographic_chunk_size = 0 then .error .zeroDivisionError else
    let square_area := (lat1 - lat0) * (lon1 - lon0)
    let geographic_chunks : ℤ := ⌈square_area / geographic_chunk_size⌉
    if geographic_chunks = 0 then .error .zeroDivisionError else
    let latitude_chunk_size := (lat1 - lat0) / (geographic_chunks : ℚ)
    let latitude_ranges := (List.range geographic_chunks.toNat).map
      (fun chunk_number : ℕ =>
        (lat0 + latitude_chunk_size * (chunk_number : ℚ),
         lat0 + latitude_chunk_size * ((chunk_number : ℚ) + 1)))
    .ok (latitude_ranges.map (fun r => { longitude := lon, latitude := r }))
  | _, _, _, _ => .error .indexError

/-- Python `sorted` on integer timestamps, with the `reverse` flag:
ascending for `reverse=False`, descending for `reverse=True`. -/
def pySorted (l : List ℤ) (rev : Bool) : List ℤ :=
  if rev then l.insertionSort (fun a b => b ≤ a) else l.insertionSort (fun a b => a ≤ b)

/-- Python `range(0, stop, step)` for a positive `step`: the multiples of
`step` below `stop`. -/
def rangeStep (stop step : ℕ) : List ℕ :=
  (List.range ((stop + step - 1) / step)).map (· * step)

/-- `_chunk_iterable(_iterable, chunk_size)` from `src/dc_chunker.py`
lines 101–104: `[_iterable[i:i+chunk_size] for i in range(0, len, chunk_size)]`.
A zero step makes Python `range` raise `ValueError`. -/
def _chunk_iterable (_iterable : List ℤ) (chunk_size : ℕ) :
    Except PyErr (List (List ℤ)) :=
  if chunk_size = 0 then .error .valueError else
  .ok ((rangeStep _iterable.length chunk_size).map
    (fun index => (_iterable.drop index).take chunk_size))

/-- `create_time_chunks(datetime_list, _reversed, time_chunk_size)` from
`src/dc_chunker.py` lines 68–87: sort (descending when `_reversed`), return
the whole sorted list as a single batch when `time_chunk_size is None`,
otherwise chunk it. -/
def create_time_chunks (datetime_list : List ℤ) (_reversed : Bool)
    (time_chunk_size : Option ℕ) : Except PyErr (List (List ℤ)) :=
  let datetimes_sorted := pySorted datetime_list _reversed
  match time_chunk_size with
  | none => .ok [datetimes_sorted]
  | some k => _chunk_iterable datetimes_sorted k

/-- The two fields of a Python `datetime` that the grouping functions read. -/
structure PyDatetime where
  year : ℤ
  month : ℤ
  deriving DecidableEq, Repr

/-- `itertools.groupby(l, key)`, consumed eagerly: the list of maximal
adjacent runs of equal key, each tagged with its key. -/
def pyGroupby (key : PyDatetime → ℤ) : List PyDatetime → List (ℤ × List PyDatetime)
  | [] => []
  | x :: xs =>
    match pyGroupby key xs with
    | [] => [(key x, [x])]
    | (k, run) :: rest =>
      if key x = k then (k, x :: run) :: rest
      else (key x, [x]) :: (k, run) :: rest

/-- Inserting one key/value pair into a Python dict (kept as an association
list in insertion order): an existing key keeps its position but gets the
new value, a new key is appended. -/
def pyDictInsert (d : List (ℤ × List PyDatetime)) (k : ℤ) (v : List PyDatetime) :
    List (ℤ × List PyDatetime) :=
  if d.any (fun p => p.1 = k) then
    d.map (fun p => if p.1 = k then (k, v) else p)
  else d ++ [(k, v)]

/-- Python `dict(pairs)`: later pairs with the same key overwrite earlier
ones. -/
def pyDict (pairs : List (ℤ × List PyDatetime)) : List (ℤ × List PyDatetime) :=
  pairs.foldl (fun d p => pyDictInsert d p.1 p.2) []

/-- `group_datetimes_by_year(datetime_list)` from `src/dc_chunker.py`
lines 90–92: `dict(groupby(datetime_list, lambda x: x.year))`. -/
def group_datetimes_by_year (datetime_list : List PyDatetime) :
    List (ℤ × List PyDatetime) :=
  pyDict (pyGroupby (fun x => x.year) datetime_list)

/-- `group_datetimes_by_month(datetime_list, months)` from
`src/dc_chunker.py` lines 95–98: the filtered subsequence `month_filtered`
is computed but unused; the original list is grouped. -/
def group_datetimes_by_month (datetime_list : List PyDatetime)
    (months : List ℤ) : List (ℤ × List PyDatetime) :=
  let _month_filtered := datetime_list.filter (fun x => months.contains x.month)
  pyDict (pyGroupby (fun x => x.month) datetime_list)

/-- Python `sorted` on rational axis values, with the `reverse` flag. -/
def pySortedQ (l : List ℚ) (rev : Bool) : List ℚ :=
  if rev then l.insertionSort (fun a b => b ≤ a) else l.insertionSort (fun a b => a ≤ b)

/-- The coordinate axes of an xarray dataset, the only part of that external
type that `combine_geographic_chunks` observes: latitude and longitude axes,
and an optional time axis. -/
structure Dataset where
  latitude : List ℚ
  longitude : List ℚ
  time : Option (List ℚ)
  deriving DecidableEq, Repr

/-- A value placed in the `indices` dict passed to `reindex`: either a plain
sequence of axis values, or a Python tuple of sequences (what a trailing
comma builds). -/
inductive Indexer where
  | vals (xs : List ℚ)
  | tup (xss : List (List ℚ))
  deriving DecidableEq, Repr

/-- The reindexed result of `combine_geographic_chunks`: each axis is
described by the indexer the code passed to `reindex` for it. -/
structure CombinedResult where
  latitude : List ℚ
  longitude : List ℚ
  time : Option Indexer
  deriving DecidableEq, Repr

/-- Union of two coordinate axes, as xarray's outer-join alignment produces
it: all values of the first axis followed by the new values of the second.
(Only membership matters downstream: the code sorts these unions.) -/
def pyUnion (a b : List ℚ) : List ℚ :=
  a ++ b.filter (fun x => !a.contains x)

/-- Model of xarray's `Dataset.combine_first` restricted to what the code
observes: the coordinate axes of the result are the union of the two
operands' axes. -/
def combine_first (a b : Dataset) : Dataset where
  latitude := pyUnion a.latitude b.latitude
  longitude := pyUnion a.longitude b.longitude
  time :=
    match a.time, b.time with
    | none, t => t
    | some ta, none => some ta
    | some ta, some tb => some (pyUnion ta tb)

/-- `combine_geographic_chunks(chunks)` from `src/dc_chunker.py`
lines 39–65: fold the chunks with `combine_first` (`None` seed, so the empty
input leaves `combined_chunks = None` — modelled as `Option.none` — and the
subsequent attribute accesses fail), then build the `indices` dict:
latitude sorted descending, longitude sorted ascending, and — when a time
axis is present — line 64 `indices['time'] = sorted(...),` whose trailing
comma makes the entry a one-element Python tuple containing the sorted
list, not the sorted list itself.  The result's axes are the indexers
handed to `reindex`. -/
def combine_geographic_chunks (chunks : List Dataset) : Option CombinedResult :=
  match chunks.foldl (fun acc chunk =>
      match acc with
      | none => some chunk
      | some c => some (combine_first c chunk)) none with
  | none => none
  | some combined =>
    some { latitude := pySortedQ combined.latitude true
           longitude := pySortedQ combined.longitude false
           time := combined.time.map (fun ts => Indexer.tup [pySortedQ ts false]) }

/-- `_generate_baseline(_iterable, window_length)` from `src/dc_chunker.py`
lines 107–131: a short input is returned unchanged (`Sum.inl`); otherwise
the function returns a singleton list wrapping the comprehension of
`num_windows = len - window_length - 1` slices (`Sum.inr`, mirroring the
extra pair of brackets on line 131). -/
def _generate_baseline (_iterable : List ℤ) (window_length : ℕ) :
    List ℤ ⊕ List (List (List ℤ)) :=
  if _iterable.length ≤ window_length then .inl _iterable
  else
    .inr [(List.range (_iterable.length - window_length - 1)).map
      (fun window => (_iterable.drop window).take window_length)]

/-! ### Evaluation lemmas for `create_geographic_chunks` -/

/-- Unfolding `create_geographic_chunks` on well-formed two-element ranges
when the computed chunk count is a nonzero integer `n`. -/
lemma create_geographic_chunks_eval (lon0 lon1 lat0 lat1 size : ℚ) (n : ℤ)
    (hs : size ≠ 0) (hn : ⌈((lat1 - lat0) * (lon1 - lon0)) / size⌉ = n)
    (hn0 : n ≠ 0) :
    create_geographic_chunks (some [lon0, lon1]) (some [lat0, lat1]) size =
      .ok ((List.range n.toNat).map (fun i : ℕ =>
        { longitude := [lon0, lon1]
          latitude := (lat0 + (lat1 - lat0) / (n : ℚ) * (i : ℚ),
                       lat0 + (lat1 - lat0) / (n : ℚ) * ((i : ℚ) + 1)) })) := by
  subst hn
  simp [create_geographic_chunks, pyTruthy, hs, hn0, List.map_map]

/-- Unfolding `create_geographic_chunks` on well-formed two-element ranges
when the computed chunk count is zero: the latitude band width computation
divides by zero. -/
lemma create_geographic_chunks_eval_zero (lon0 lon1 lat0 lat1 size : ℚ)
    (hs : size ≠ 0) (hn : ⌈((lat1 - lat0) * (lon1 - lon0)) / size⌉ = 0) :
    create_geographic_chunks (some [lon0, lon1]) (some [lat0, lat1]) size =
      .error .zeroDivisionError := by
  simp [create_geographic_chunks, pyTruthy, hs, hn]

/-- A truthy optional sequence is `some` of its `getD []` extraction. -/
lemma pyTruthy_some_getD (o : Option (List ℚ)) (h : pyTruthy o = true) :
    some (o.getD []) = o := by
  cases o with
  | none => simp [pyTruthy] at h
  | some xs => rfl

/-! ### Claim theorems -/

/-- C9: `create_geographic_chunks` fails immediately with the
assertion-style input-validation error whenever either the latitude range
or the longitude range is absent (`None`) or empty, before computing any
chunks. -/
theorem create_geographic_chunks_missing_range
    (longitude latitude : Option (List ℚ)) (size : ℚ)
    (h : latitude = none ∨ latitude = some [] ∨
         longitude = none ∨ longitude = some []) :
    create_geographic_chunks longitude latitude size =
      .error .assertionError := by
  rcases h with h | h | h | h <;> subst h <;>
    simp [create_geographic_chunks, pyTruthy]

/-- Witness for C9: a missing latitude range is rejected. -/
theorem create_geographic_chunks_missing_range_witness :
    ((none : Option (List ℚ)) = none ∨ (none : Option (List ℚ)) = some [] ∨
      (some [10, 20] : Option (List ℚ)) = none ∨
      (some [10, 20] : Option (List ℚ)) = some []) ∧
    create_geographic_chunks (some [10, 20]) none 1 =
      .error .assertionError :=
  ⟨Or.inl rfl,
    create_geographic_chunks_missing_range (some [10, 20]) none 1 (Or.inl rfl)⟩

/-- C10: on an input of length at most the window length,
`_generate_baseline` returns the original sequence itself, unchanged and not
wrapped as a window set. -/
theorem generate_baseline_short_input (xs : List ℤ) (W : ℕ)
    (h : xs.length ≤ W) :
    _generate_baseline xs W = Sum.inl xs := by
  simp [_generate_baseline, h]

/-- Witness for C10: a two-element input with window length 2 comes back
unchanged. -/
theorem generate_baseline_short_input_witness :
    ([1, 2] : List ℤ).length ≤ 2 ∧
    _generate_baseline [1, 2] 2 = Sum.inl [1, 2] :=
  ⟨by decide, generate_baseline_short_input [1, 2] 2 (by decide)⟩

/-- C4: on an input of length `L > W`, `_generate_baseline` produces exactly
`L - W - 1` windows (one fewer than the number of valid full-length
windows), one per consecutive offset starting at offset 0, each window of
length exactly `W` (the whole window list being wrapped in a singleton
list, per line 131). -/
theorem generate_baseline_window_count (xs : List ℤ) (W : ℕ)
    (h : W < xs.length) :
    ∃ ws : List (List ℤ),
      _generate_baseline xs W = Sum.inr [ws] ∧
      ws.length = xs.length - W - 1 ∧
      ∀ i : ℕ, ∀ w : List ℤ, ws.get? i = some w →
        w = (xs.drop i).take W ∧ w.length = W := by
  refine ⟨(List.range (xs.length - W - 1)).map
    (fun window => (xs.drop window).take W), ?_, ?_, ?_⟩
  · simp [_generate_baseline, Nat.not_le.mpr h]
  · simp
  · intro i w hw
    have hi : i < xs.length - W - 1 := by
      by_contra hnot
      rw [List.get?_eq_none.mpr (by simpa using Nat.le_of_not_lt hnot)] at hw
      exact Option.noConfusion hw
    rw [List.get?_eq_getElem?, List.getElem?_map, List.getElem?_range hi] at hw
    obtain rfl : (xs.drop i).take W = w := by simpa using hw
    refine ⟨rfl, ?_⟩
    rw [List.length_take, List.length_drop]
    omega

/-- Witness for C4: input length 5, window length 2 gives the two windows at
offsets 0 and 1, each of length 2. -/
theorem generate_baseline_window_count_witness :
    2 < ([1, 2, 3, 4, 5] : List ℤ).length ∧
    ∃ ws : List (List ℤ),
      _generate_baseline [1, 2, 3, 4, 5] 2 = Sum.inr [ws] ∧
      ws.length = ([1, 2, 3, 4, 5] : List ℤ).length - 2 - 1 ∧
      ∀ i : ℕ, ∀ w : List ℤ, ws.get? i = some w →
        w = (([1, 2, 3, 4, 5] : List ℤ).drop i).take 2 ∧ w.length = 2 :=
  ⟨by decide, generate_baseline_window_count [1, 2, 3, 4, 5] 2 (by decide)⟩

/-- C5: `group_datetimes_by_month` ignores its `months` inclusion list: the
filtered subsequence is computed but discarded, and the original unfiltered
list is what gets grouped, so any two inclusion lists give identical
results. -/
theorem group_datetimes_by_month_months_irrelevant
    (datetime_list : List PyDatetime) (months1 months2 : List ℤ) :
    group_datetimes_by_month datetime_list months1 =
      group_datetimes_by_month datetime_list months2 := rfl

/-- C8: every chunk descriptor produced by `create_geographic_chunks`
carries the original input longitude range unchanged (hence identical
across all produced descriptors); only the latitude range is narrowed. -/
theorem create_geographic_chunks_longitude_unchanged
    (longitude latitude : Option (List ℚ)) (size : ℚ) (chunks : List Chunk)
    (h : create_geographic_chunks longitude latitude size = .ok chunks) :
    ∀ c ∈ chunks, some c.longitude = longitude := by
  intro c hc
  unfold create_geographic_chunks at h
  split at h
  · exact absurd h (by simp)
  next hTruthy =>
    have hlon : pyTruthy longitude = true := by
      by_contra hb
      simp [Bool.not_eq_true] at hb
      simp [hb] at hTruthy
    dsimp only at h
    split at h
    next lat0 lat1 lon0 lon1 hl0 hl1 hn0 hn1 =>
      split at h
      · exact absurd h (by simp)
      · split at h
        · exact absurd h (by simp)
        · rw [Except.ok.injEq] at h
          subst h
          rw [List.mem_map] at hc
          obtain ⟨r, hr, rfl⟩ := hc
          simpa using pyTruthy_some_getD longitude hlon
    · exact absurd h (by simp)

/-- Witness for C8: splitting latitude `[0, 1]`, longitude `[10, 12]` with
target area 1 gives two chunks, both carrying longitude `[10, 12]`. -/
theorem create_geographic_chunks_longitude_unchanged_witness :
    create_geographic_chunks (some [10, 12]) (some [0, 1]) 1 =
      .ok [⟨[10, 12], (0, 1/2)⟩, ⟨[10, 12], (1/2, 1)⟩] ∧
    ∀ c ∈ [Chunk.mk [10, 12] (0, 1/2), Chunk.mk [10, 12] (1/2, 1)],
      some c.longitude = some [10, 12] := by
  have hEval : create_geographic_chunks (some [10, 12]) (some [0, 1]) 1 =
      .ok [⟨[10, 12], (0, 1/2)⟩, ⟨[10, 12], (1/2, 1)⟩] := by
    rw [create_geographic_chunks_eval 10 12 0 1 1 2 (by norm_num)
      (by norm_num) (by decide)]
    have h2 : ((2 : ℤ).toNat) = 2 := rfl
    rw [h2]
    norm_num [List.range_succ]
  exact ⟨hEval,
    create_geographic_chunks_longitude_unchanged (some [10, 12]) (some [0, 1]) 1 _ hEval⟩

/-- C3 counterexample: a zero-area input (latitude `[0, 1]`, longitude
`[5, 5]`) is not tolerated gracefully: the chunk count is `⌈0⌉ = 0`, the
band-width division divides by zero, and no chunk list is produced. -/
theorem create_geographic_chunks_zero_area_error :
    create_geographic_chunks (some [5, 5]) (some [0, 1]) (1/2) =
      .error .zeroDivisionError ∧
    ¬ ∃ chunks : List Chunk,
        create_geographic_chunks (some [5, 5]) (some [0, 1]) (1/2) =
          .ok chunks := by
  have h : create_geographic_chunks (some [5, 5]) (some [0, 1]) (1/2) =
      .error .zeroDivisionError :=
    create_geographic_chunks_eval_zero 5 5 0 1 (1/2) (by norm_num) (by norm_num)
  refine ⟨h, ?_⟩
  rw [h]
  rintro ⟨chunks, hc⟩
  exact Except.noConfusion hc

/-- C3 (amended): on a two-element latitude/longitude range pair whose
computed area is zero or negative (and a positive target chunk size),
`create_geographic_chunks` never produces a minimum of one chunk: when the
ceiling chunk count is zero it raises a `ZeroDivisionError`, and otherwise
(the chunk count being negative) it returns an empty chunk list with no
error. -/
theorem create_geographic_chunks_degenerate (lon0 lon1 lat0 lat1 size : ℚ)
    (hsize : 0 < size) (hA : (lat1 - lat0) * (lon1 - lon0) ≤ 0) :
    (create_geographic_chunks (some [lon0, lon1]) (some [lat0, lat1]) size =
      if ⌈((lat1 - lat0) * (lon1 - lon0)) / size⌉ = 0
        then Except.error PyErr.zeroDivisionError
        else Except.ok []) ∧
    ∀ chunks : List Chunk,
      create_geographic_chunks (some [lon0, lon1]) (some [lat0, lat1]) size =
        .ok chunks → chunks = [] := by
  have hceil : ⌈((lat1 - lat0) * (lon1 - lon0)) / size⌉ ≤ 0 := by
    rw [Int.ceil_le]
    push_cast
    exact div_nonpos_iff.mpr (Or.inr ⟨hA, hsize.le⟩)
  have hmain : create_geographic_chunks (some [lon0, lon1]) (some [lat0, lat1]) size =
      if ⌈((lat1 - lat0) * (lon1 - lon0)) / size⌉ = 0
        then Except.error PyErr.zeroDivisionError
        else Except.ok [] := by
    by_cases h0 : ⌈((lat1 - lat0) * (lon1 - lon0)) / size⌉ = 0
    · rw [if_pos h0]
      exact create_geographic_chunks_eval_zero _ _ _ _ _ (ne_of_gt hsize) h0
    · rw [if_neg h0,
        create_geographic_chunks_eval lon0 lon1 lat0 lat1 size _ (ne_of_gt hsize) rfl h0]
      have hz : (⌈((lat1 - lat0) * (lon1 - lon0)) / size⌉).toNat = 0 := by omega
      rw [hz]
      rfl
  refine ⟨hmain, ?_⟩
  intro chunks hc
  rw [hmain] at hc
  by_cases h0 : ⌈((lat1 - lat0) * (lon1 - lon0)) / size⌉ = 0
  · rw [if_pos h0] at hc
    exact Except.noConfusion hc
  · rw [if_neg h0] at hc
    exact (Except.ok.injEq _ _ ▸ hc).symm

/-- Witness for C3 (amended): latitude `[0, 1]`, longitude `[20, 10]` has
area `-10`; with chunk size `1/2` the function returns an empty chunk
list. -/
theorem create_geographic_chunks_degenerate_witness :
    (0 : ℚ) < 1/2 ∧ ((1 : ℚ) - 0) * ((10 : ℚ) - 20) ≤ 0 ∧
    ((create_geographic_chunks (some [20, 10]) (some [0, 1]) (1/2) =
      if ⌈(((1 : ℚ) - 0) * ((10 : ℚ) - 20)) / (1/2)⌉ = 0
        then Except.error PyErr.zeroDivisionError
        else Except.ok []) ∧
    ∀ chunks : List Chunk,
      create_geographic_chunks (some [20, 10]) (some [0, 1]) (1/2) =
        .ok chunks → chunks = []) :=
  ⟨by norm_num, by norm_num,
    create_geographic_chunks_degenerate 20 10 0 1 (1/2) (by norm_num) (by norm_num)⟩

/-- Any point of the interval from `lat0` to `lat0 + w * m` lies in one of
the `m` consecutive width-`w` bands starting at `lat0`. -/
lemma mem_band_cover (lat0 w : ℚ) (hw : 0 < w) (m : ℕ) (hm : 0 < m) (x : ℚ)
    (h1 : lat0 ≤ x) (h2 : x ≤ lat0 + w * (m : ℚ)) :
    ∃ i : ℕ, i < m ∧ lat0 + w * (i : ℚ) ≤ x ∧ x ≤ lat0 + w * ((i : ℚ) + 1) := by
  set t : ℚ := (x - lat0) / w with ht
  have ht0 : 0 ≤ t := div_nonneg (by linarith) hw.le
  have htm : t ≤ (m : ℚ) := by
    rw [ht, div_le_iff₀ hw]
    nlinarith
  have hxt : x = lat0 + w * t := by
    rw [ht, mul_div_cancel₀ _ (ne_of_gt hw)]
    ring
  have hcast : ((⌊t⌋.toNat : ℕ) : ℚ) = (⌊t⌋ : ℚ) := by
    exact_mod_cast congrArg (fun z : ℤ => (z : ℚ))
      (Int.toNat_of_nonneg (Int.floor_nonneg.mpr ht0))
  refine ⟨min ⌊t⌋.toNat (m - 1), by omega, ?_, ?_⟩
  · have hle : ((min ⌊t⌋.toNat (m - 1) : ℕ) : ℚ) ≤ t := by
      have ha : ((min ⌊t⌋.toNat (m - 1) : ℕ) : ℚ) ≤ ((⌊t⌋.toNat : ℕ) : ℚ) := by
        exact_mod_cast min_le_left ⌊t⌋.toNat (m - 1)
      calc ((min ⌊t⌋.toNat (m - 1) : ℕ) : ℚ) ≤ ((⌊t⌋.toNat : ℕ) : ℚ) := ha
        _ = (⌊t⌋ : ℚ) := hcast
        _ ≤ t := Int.floor_le t
    have := mul_le_mul_of_nonneg_left hle hw.le
    rw [hxt]
    linarith
  · rcases le_or_lt (⌊t⌋.toNat) (m - 1) with hc | hc
    · rw [min_eq_left hc]
      have hlt : t < ((⌊t⌋.toNat : ℕ) : ℚ) + 1 := by
        rw [hcast]
        exact Int.lt_floor_add_one t
      have := mul_le_mul_of_nonneg_left hlt.le hw.le
      rw [hxt]
      linarith
    · rw [min_eq_right hc.le]
      have hmq : (((m - 1 : ℕ)) : ℚ) + 1 = (m : ℚ) := by
        have hnat : (m - 1) + 1 = m := Nat.succ_pred_eq_of_pos hm
        exact_mod_cast congrArg (fun k : ℕ => (k : ℚ)) hnat
      have hle : t ≤ (((m - 1 : ℕ)) : ℚ) + 1 := by rw [hmq]; exact htm
      have := mul_le_mul_of_nonneg_left hle hw.le
      rw [hxt]
      linarith

/-- C1: on a latitude range `[lat0, lat1]` and longitude range
`[lon0, lon1]` with positive area and a positive target chunk area,
`create_geographic_chunks` produces exactly `⌈area / target⌉` chunk
descriptors (at least one), whose latitude sub-ranges are the contiguous,
non-overlapping, equal-width bands
`[lat0 + i*w, lat0 + (i+1)*w]` for `w = (lat1 - lat0) / chunk_count`, and
whose union reconstructs `[lat0, lat1]` exactly. -/
theorem create_geographic_chunks_partition (lat0 lat1 lon0 lon1 size : ℚ)
    (hlat : lat0 < lat1) (hlon : lon0 < lon1) (hsize : 0 < size) :
    ∃ chunks : List Chunk,
      create_geographic_chunks (some [lon0, lon1]) (some [lat0, lat1]) size =
        .ok chunks ∧
      (chunks.length : ℤ) = ⌈((lat1 - lat0) * (lon1 - lon0)) / size⌉ ∧
      1 ≤ chunks.length ∧
      (∀ i : ℕ, ∀ c : Chunk, chunks.get? i = some c →
        c.latitude = (lat0 + (lat1 - lat0) / (chunks.length : ℚ) * (i : ℚ),
                      lat0 + (lat1 - lat0) / (chunks.length : ℚ) * ((i : ℚ) + 1))) ∧
      (∀ i : ℕ, ∀ c c' : Chunk, chunks.get? i = some c →
        chunks.get? (i + 1) = some c' → c.latitude.2 = c'.latitude.1) ∧
      (∀ i j : ℕ, ∀ c c' : Chunk, i < j → chunks.get? i = some c →
        chunks.get? j = some c' → c.latitude.2 ≤ c'.latitude.1) ∧
      (∀ c ∈ chunks, c.latitude.2 - c.latitude.1 =
        (lat1 - lat0) / (chunks.length : ℚ)) ∧
      (∀ x : ℚ, x ∈ Set.Icc lat0 lat1 ↔
        ∃ c ∈ chunks, x ∈ Set.Icc c.latitude.1 c.latitude.2) := by
  have hA : 0 < (lat1 - lat0) * (lon1 - lon0) :=
    mul_pos (by linarith) (by linarith)
  have hnpos : 0 < ⌈((lat1 - lat0) * (lon1 - lon0)) / size⌉ :=
    Int.ceil_pos.mpr (div_pos hA hsize)
  set n : ℤ := ⌈((lat1 - lat0) * (lon1 - lon0)) / size⌉ with hn
  have hEval := create_geographic_chunks_eval lon0 lon1 lat0 lat1 size n
    (ne_of_gt hsize) hn.symm (by omega)
  set w : ℚ := (lat1 - lat0) / (n : ℚ) with hwdef
  set f : ℕ → Chunk := (fun i : ℕ =>
    { longitude := [lon0, lon1]
      latitude := (lat0 + w * (i : ℚ), lat0 + w * ((i : ℚ) + 1)) }) with hf
  set m : ℕ := n.toNat with hmdef
  have hmn : (m : ℤ) = n := Int.toNat_of_nonneg hnpos.le
  have hm : 0 < m := by omega
  have hmQ : ((m : ℕ) : ℚ) = ((n : ℤ) : ℚ) := by rw [← hmn]; simp
  have hnQ0 : (0 : ℚ) < ((n : ℤ) : ℚ) := by exact_mod_cast hnpos
  have hw : 0 < w := div_pos (by linarith) hnQ0
  have hlen : ((List.range m).map f).length = m := by simp
  have hget : ∀ i : ℕ, ∀ c : Chunk, ((List.range m).map f).get? i = some c →
      i < m ∧ c = f i := by
    intro i c hc
    have hi : i < m := by
      by_contra hnot
      rw [List.get?_eq_none.mpr (by simpa using Nat.le_of_not_lt hnot)] at hc
      exact Option.noConfusion hc
    rw [List.get?_eq_getElem?, List.getElem?_map, List.getElem?_range hi] at hc
    exact ⟨hi, by simpa using hc.symm⟩
  have hwm : w * (m : ℚ) = lat1 - lat0 := by
    rw [hwdef, hmQ, div_mul_cancel₀ _ (ne_of_gt hnQ0)]
  have hwq : (lat1 - lat0) / ((((List.range m).map f).length : ℕ) : ℚ) = w := by
    rw [hlen, hmQ, hwdef]
  refine ⟨(List.range m).map f, hEval, ?_, ?_, ?_, ?_, ?_, ?_, ?_⟩
  · rw [hlen, hmn]
  · rw [hlen]; omega
  · intro i c hc
    obtain ⟨hi, rfl⟩ := hget i c hc
    rw [hwq]
  · intro i c c' hc hc'
    obtain ⟨hi, rfl⟩ := hget i c hc
    obtain ⟨hi', rfl⟩ := hget (i + 1) c' hc'
    show lat0 + w * ((i : ℚ) + 1) = lat0 + w * (((i + 1 : ℕ)) : ℚ)
    push_cast
    ring
  · intro i j c c' hij hc hc'
    obtain ⟨hi, rfl⟩ := hget i c hc
    obtain ⟨hj, rfl⟩ := hget j c' hc'
    show lat0 + w * ((i : ℚ) + 1) ≤ lat0 + w * (j : ℚ)
    have hcast : ((i : ℚ) + 1) ≤ (j : ℚ) := by exact_mod_cast hij
    nlinarith
  · intro c hc
    obtain ⟨i, hi, rfl⟩ := List.mem_map.mp hc
    rw [hwq]
    show lat0 + w * ((i : ℚ) + 1) - (lat0 + w * (i : ℚ)) = w
    ring
  · intro x
    constructor
    · intro hx
      rw [Set.mem_Icc] at hx
      obtain ⟨i, him, hlo, hhi⟩ := mem_band_cover lat0 w hw m hm x hx.1
        (by rw [mul_comm w (m:ℚ)] at hwm ⊢; linarith [hx.2, hwm])
      refine ⟨f i, List.mem_map.mpr ⟨i, List.mem_range.mpr him, rfl⟩, ?_⟩
      exact Set.mem_Icc.mpr ⟨hlo, hhi⟩
    · rintro ⟨c, hcmem, hxc⟩
      obtain ⟨i, hi, rfl⟩ := List.mem_map.mp hcmem
      rw [List.mem_range] at hi
      rw [Set.mem_Icc] at hxc ⊢
      simp only [hf] at hxc
      obtain ⟨hxl, hxr⟩ := hxc
      constructor
      · have hwi : (0 : ℚ) ≤ w * (i : ℚ) :=
          mul_nonneg hw.le (by exact_mod_cast Nat.zero_le i)
        linarith
      · have hcast : ((i : ℚ) + 1) ≤ (m : ℚ) := by exact_mod_cast hi
        have hwi : w * ((i : ℚ) + 1) ≤ w * (m : ℚ) :=
          mul_le_mul_of_nonneg_left hcast hw.le
        linarith

/-- Witness for C1: latitude `[0, 1]`, longitude `[10, 20]`, target area
`1/2` (the spec's worked example, 20 bands). -/
theorem create_geographic_chunks_partition_witness :
    (0 : ℚ) < 1 ∧ (10 : ℚ) < 20 ∧ (0 : ℚ) < 1/2 ∧
    ∃ chunks : List Chunk,
      create_geographic_chunks (some [(10 : ℚ), 20]) (some [(0 : ℚ), 1]) (1/2) =
        .ok chunks ∧
      (chunks.length : ℤ) = ⌈(((1 : ℚ) - 0) * ((20 : ℚ) - 10)) / (1/2)⌉ ∧
      1 ≤ chunks.length ∧
      (∀ i : ℕ, ∀ c : Chunk, chunks.get? i = some c →
        c.latitude = ((0 : ℚ) + ((1 : ℚ) - 0) / (chunks.length : ℚ) * (i : ℚ),
                      (0 : ℚ) + ((1 : ℚ) - 0) / (chunks.length : ℚ) * ((i : ℚ) + 1))) ∧
      (∀ i : ℕ, ∀ c c' : Chunk, chunks.get? i = some c →
        chunks.get? (i + 1) = some c' → c.latitude.2 = c'.latitude.1) ∧
      (∀ i j : ℕ, ∀ c c' : Chunk, i < j → chunks.get? i = some c →
        chunks.get? j = some c' → c.latitude.2 ≤ c'.latitude.1) ∧
      (∀ c ∈ chunks, c.latitude.2 - c.latitude.1 =
        ((1 : ℚ) - 0) / (chunks.length : ℚ)) ∧
      (∀ x : ℚ, x ∈ Set.Icc (0 : ℚ) 1 ↔
        ∃ c ∈ chunks, x ∈ Set.Icc c.latitude.1 c.latitude.2) :=
  ⟨by norm_num, by norm_num, by norm_num,
    create_geographic_chunks_partition 0 1 10 20 (1/2)
      (by norm_num) (by norm_num) (by norm_num)⟩

instance : IsTotal ℤ (fun a b : ℤ => b ≤ a) := ⟨fun a b => le_total b a⟩

instance : IsTrans ℤ (fun a b : ℤ => b ≤ a) :=
  ⟨fun _ _ _ h1 h2 => le_trans h2 h1⟩

/-- Concatenating the first `m` size-`k` slices of `xs` gives its first
`m * k` elements. -/
lemma chunk_join_aux (k m : ℕ) : ∀ xs : List ℤ,
    ((List.range m).map (fun j => (xs.drop (j * k)).take k)).flatten =
      xs.take (m * k) := by
  induction m with
  | zero => intro xs; simp
  | succ m ih =>
    intro xs
    rw [List.range_succ_eq_map, List.map_cons, List.map_map, List.flatten_cons]
    have hcomp : ((fun j => (xs.drop (j * k)).take k) ∘ Nat.succ) =
        (fun j => (((xs.drop k).drop (j * k)).take k)) := by
      funext j
      simp only [Function.comp_apply, List.drop_drop]
      congr 2
      rw [Nat.succ_mul]
      exact Nat.add_comm _ _
    rw [hcomp, ih (xs.drop k)]
    rw [Nat.zero_mul, List.drop_zero, Nat.succ_mul, Nat.add_comm (m * k) k,
      List.take_add]

/-- `_chunk_iterable` with a positive chunk size succeeds, its batches
concatenate back to the input, every batch except possibly the last has
length exactly `k`, and no batch exceeds `k`. -/
lemma chunk_iterable_spec (xs : List ℤ) (k : ℕ) (hk : 0 < k) :
    ∃ out : List (List ℤ), _chunk_iterable xs k = .ok out ∧
      out.flatten = xs ∧
      (∀ i : ℕ, ∀ b : List ℤ, i + 1 < out.length → out.get? i = some b →
        b.length = k) ∧
      (∀ i : ℕ, ∀ b : List ℤ, out.get? i = some b → b.length ≤ k) := by
  obtain ⟨kk, rfl⟩ : ∃ kk, k = kk + 1 := ⟨k - 1, by omega⟩
  have hq : xs.length + (kk + 1) - 1 = xs.length + kk := by omega
  refine ⟨(List.range ((xs.length + (kk + 1) - 1) / (kk + 1))).map
    (fun j => (xs.drop (j * (kk + 1))).take (kk + 1)), ?_, ?_, ?_, ?_⟩
  · simp only [_chunk_iterable, Nat.pos_iff_ne_zero.mp hk, if_false,
      rangeStep, List.map_map]
    rfl
  · rw [chunk_join_aux]
    refine List.take_of_length_le ?_
    rw [hq]
    have hd := Nat.div_add_mod (xs.length + kk) (kk + 1)
    have hr : (xs.length + kk) % (kk + 1) < kk + 1 := Nat.mod_lt _ hk
    nlinarith [hd, hr]
  · intro i b hi1 hb
    rw [List.length_map, List.length_range] at hi1
    have hi : i < (xs.length + (kk + 1) - 1) / (kk + 1) := by omega
    rw [List.get?_eq_getElem?, List.getElem?_map, List.getElem?_range hi] at hb
    obtain rfl : (xs.drop (i * (kk + 1))).take (kk + 1) = b := by simpa using hb
    rw [List.length_take, List.length_drop]
    rw [hq] at hi1
    have hmul : (i + 2) * (kk + 1) ≤ xs.length + kk :=
      (Nat.le_div_iff_mul_le hk).mp (by omega)
    have h2 : i * (kk + 1) + (kk + 1) ≤ xs.length := by nlinarith
    omega
  · intro i b hb
    have hi : i < (xs.length + (kk + 1) - 1) / (kk + 1) := by
      by_contra hnot
      rw [List.get?_eq_none.mpr (by simpa using Nat.le_of_not_lt hnot)] at hb
      exact Option.noConfusion hb
    rw [List.get?_eq_getElem?, List.getElem?_map, List.getElem?_range hi] at hb
    obtain rfl : (xs.drop (i * (kk + 1))).take (kk + 1) = b := by simpa using hb
    rw [List.length_take]
    omega

/-- C2: `create_time_chunks` sorts the timestamp list (ascending by
default, descending under the `_reversed` flag); with the `None` sentinel
it returns the whole sorted list as one batch; with a positive batch size
`B` it partitions the sorted list into contiguous batches whose
concatenation reproduces the sorted list exactly, every batch except
possibly the last having length exactly `B` (and none exceeding `B`). -/
theorem create_time_chunks_batches (datetime_list : List ℤ) (B : ℕ)
    (hB : 0 < B) :
    (∀ rev : Bool, create_time_chunks datetime_list rev none =
      .ok [pySorted datetime_list rev]) ∧
    (∀ rev : Bool, List.Perm (pySorted datetime_list rev) datetime_list) ∧
    (pySorted datetime_list false).Sorted (fun a b : ℤ => a ≤ b) ∧
    (pySorted datetime_list true).Sorted (fun a b : ℤ => b ≤ a) ∧
    (∀ rev : Bool, ∃ out : List (List ℤ),
      create_time_chunks datetime_list rev (some B) = .ok out ∧
      out.flatten = pySorted datetime_list rev ∧
      (∀ i : ℕ, ∀ b : List ℤ, i + 1 < out.length → out.get? i = some b →
        b.length = B) ∧
      (∀ i : ℕ, ∀ b : List ℤ, out.get? i = some b → b.length ≤ B)) := by
  refine ⟨fun rev => rfl, ?_, ?_, ?_, ?_⟩
  · intro rev
    cases rev <;> simp only [pySorted, if_true, if_false, Bool.false_eq_true] <;>
      exact List.perm_insertionSort _ _
  · simpa only [pySorted, if_neg (by simp : ¬(false = true))] using
      List.sorted_insertionSort (fun a b : ℤ => a ≤ b) datetime_list
  · simpa only [pySorted, if_pos rfl] using
      List.sorted_insertionSort (fun a b : ℤ => b ≤ a) datetime_list
  · intro rev
    obtain ⟨out, h1, h2, h3, h4⟩ :=
      chunk_iterable_spec (pySorted datetime_list rev) B hB
    exact ⟨out, h1, h2, h3, h4⟩

/-- Witness for C2: the list `[3, 1, 2, 5, 4]` with batch size 2. -/
theorem create_time_chunks_batches_witness :
    0 < 2 ∧
    ((∀ rev : Bool, create_time_chunks [3, 1, 2, 5, 4] rev none =
      .ok [pySorted [3, 1, 2, 5, 4] rev]) ∧
    (∀ rev : Bool, List.Perm (pySorted [3, 1, 2, 5, 4] rev) [3, 1, 2, 5, 4]) ∧
    (pySorted [3, 1, 2, 5, 4] false).Sorted (fun a b : ℤ => a ≤ b) ∧
    (pySorted [3, 1, 2, 5, 4] true).Sorted (fun a b : ℤ => b ≤ a) ∧
    (∀ rev : Bool, ∃ out : List (List ℤ),
      create_time_chunks [3, 1, 2, 5, 4] rev (some 2) = .ok out ∧
      out.flatten = pySorted [3, 1, 2, 5, 4] rev ∧
      (∀ i : ℕ, ∀ b : List ℤ, i + 1 < out.length → out.get? i = some b →
        b.length = 2) ∧
      (∀ i : ℕ, ∀ b : List ℤ, out.get? i = some b → b.length ≤ 2))) :=
  ⟨by decide, create_time_chunks_batches [3, 1, 2, 5, 4] 2 (by decide)⟩

/-- Updating every entry of key `k'` does not change what a lookup of a
different key `k` finds. -/
lemma find?_map_update_ne (d : List (ℤ × List PyDatetime)) (k k' : ℤ)
    (v : List PyDatetime) (hkk : k' ≠ k) :
    ((d.map (fun p => if p.1 = k' then (k', v) else p)).find?
        (fun p => decide (p.1 = k))).map Prod.snd =
      (d.find? (fun p => decide (p.1 = k))).map Prod.snd := by
  induction d with
  | nil => rfl
  | cons p ps ih =>
    by_cases hp : p.1 = k'
    · rw [List.map_cons, if_pos hp,
        List.find?_cons_of_neg _ (by simp [hkk]),
        List.find?_cons_of_neg _ (by simp [hp, hkk])]
      exact ih
    · rw [List.map_cons, if_neg hp]
      by_cases hk : p.1 = k
      · rw [List.find?_cons_of_pos _ (by simp [hk]),
          List.find?_cons_of_pos _ (by simp [hk])]
      · rw [List.find?_cons_of_neg _ (by simp [hk]),
          List.find?_cons_of_neg _ (by simp [hk])]
        exact ih

/-- If some entry of `d` has key `k`, then after updating every entry of
key `k` to value `v`, looking up `k` finds `v`. -/
lemma find?_map_update_eq (d : List (ℤ × List PyDatetime)) (k : ℤ)
    (v : List PyDatetime)
    (hany : d.any (fun p => decide (p.1 = k)) = true) :
    ((d.map (fun p => if p.1 = k then (k, v) else p)).find?
        (fun p => decide (p.1 = k))).map Prod.snd = some v := by
  induction d with
  | nil => simp at hany
  | cons p ps ih =>
    by_cases hp : p.1 = k
    · rw [List.map_cons, if_pos hp, List.find?_cons_of_pos _ (by simp)]
      rfl
    · rw [List.map_cons, if_neg hp,
        List.find?_cons_of_neg _ (by simp [hp])]
      apply ih
      simpa [hp] using hany

/-- A dict insertion binds the inserted key to the new value and leaves
every other key's binding unchanged. -/
lemma pyDictInsert_find? (d : List (ℤ × List PyDatetime)) (k k' : ℤ)
    (v : List PyDatetime) :
    ((pyDictInsert d k' v).find? (fun p => decide (p.1 = k))).map Prod.snd =
      if k' = k then some v
      else (d.find? (fun p => decide (p.1 = k))).map Prod.snd := by
  unfold pyDictInsert
  by_cases hany : d.any (fun p => decide (p.1 = k')) = true
  · rw [if_pos hany]
    by_cases hkk : k' = k
    · subst hkk
      rw [if_pos rfl]
      exact find?_map_update_eq d k' v hany
    · rw [if_neg hkk]
      exact find?_map_update_ne d k k' v hkk
  · rw [if_neg hany, List.find?_append]
    have hnone : ∀ p ∈ d, p.1 ≠ k' := by
      intro p hp hc
      exact hany (List.any_eq_true.mpr ⟨p, hp, by simp [hc]⟩)
    by_cases hkk : k' = k
    · subst hkk
      have hfd : d.find? (fun p => decide (p.1 = k')) = none :=
        List.find?_eq_none.mpr (fun p hp => by simp [hnone p hp])
      rw [hfd, if_pos rfl]
      simp
    · have hf1 : ([(k', v)].find? (fun p => decide (p.1 = k))) = none := by
        simp [hkk]
      rw [hf1, if_neg hkk]
      cases hd : d.find? (fun p => decide (p.1 = k)) <;> simp [hd]

/-- Folding dict insertions over a pair list: a key's final binding is its
last occurrence among the inserted pairs, falling back to the seed dict. -/
lemma pyDict_fold_find? (k : ℤ) :
    ∀ (pairs d : List (ℤ × List PyDatetime)),
    ((pairs.foldl (fun d p => pyDictInsert d p.1 p.2) d).find?
        (fun p => decide (p.1 = k))).map Prod.snd =
      ((pairs.reverse.find? (fun p => decide (p.1 = k))).map Prod.snd).or
        ((d.find? (fun p => decide (p.1 = k))).map Prod.snd) := by
  intro pairs
  induction pairs with
  | nil => intro d; simp
  | cons p ps ih =>
    intro d
    rw [List.foldl_cons, ih (pyDictInsert d p.1 p.2), pyDictInsert_find?,
      List.reverse_cons, List.find?_append]
    cases hL : ps.reverse.find? (fun p => decide (p.1 = k)) with
    | some q => simp [Option.or]
    | none =>
      by_cases hp : p.1 = k
      · simp [hp, Option.or]
      · simp [hp, Option.or]

/-- Finding the first match in the reversed list is taking the last match
of the original list. -/
lemma reverse_find?_eq_filter_getLast? (l : List (ℤ × List PyDatetime))
    (k : ℤ) :
    l.reverse.find? (fun p => decide (p.1 = k)) =
      (l.filter (fun p => decide (p.1 = k))).getLast? := by
  induction l with
  | nil => rfl
  | cons p ps ih =>
    rw [List.reverse_cons, List.find?_append, ih, List.filter_cons]
    by_cases hp : p.1 = k
    · rw [if_pos (by simp [hp])]
      cases hg : (ps.filter (fun p => decide (p.1 = k))).getLast? with
      | some q =>
        have hne : ps.filter (fun p => decide (p.1 = k)) ≠ [] := by
          intro h0
          rw [h0] at hg
          exact Option.noConfusion hg
        obtain ⟨y, ys, hys⟩ := List.exists_cons_of_ne_nil hne
        rw [hys] at hg ⊢
        rw [List.getLast?_cons_cons, hg]
        simp
      | none =>
        have h0 : ps.filter (fun p => decide (p.1 = k)) = [] := by
          simpa using hg
        rw [h0]
        simp [hp]
    · rw [if_neg (by simp [hp])]
      simp [hp]

/-- Looking up a key in `pyDict pairs` gives the value of the key's last
occurrence among `pairs`. -/
lemma pyDict_find? (pairs : List (ℤ × List PyDatetime)) (k : ℤ) :
    ((pyDict pairs).find? (fun p => decide (p.1 = k))).map Prod.snd =
      ((pairs.filter (fun p => decide (p.1 = k))).getLast?).map Prod.snd := by
  rw [pyDict, pyDict_fold_find? k pairs [],
    reverse_find?_eq_filter_getLast?]
  cases (pairs.filter (fun p => decide (p.1 = k))).getLast? <;> simp [Option.or]

/-- The keys of a dict after an insertion: unchanged if the key was
present, extended by the new key otherwise. -/
lemma pyDictInsert_keys (d : List (ℤ × List PyDatetime)) (k : ℤ)
    (v : List PyDatetime) :
    (pyDictInsert d k v).map Prod.fst =
      if d.any (fun p => decide (p.1 = k)) = true then d.map Prod.fst
      else d.map Prod.fst ++ [k] := by
  unfold pyDictInsert
  by_cases hany : d.any (fun p => decide (p.1 = k)) = true
  · rw [if_pos hany, if_pos hany, List.map_map]
    refine List.map_congr_left ?_
    intro p hp
    by_cases hpk : p.1 = k
    · simp [hpk]
    · simp [hpk]
  · rw [if_neg hany, if_neg hany, List.map_append]
    rfl

/-- Folding dict insertions preserves distinctness of the keys. -/
lemma pyDict_fold_keys_nodup :
    ∀ (pairs d : List (ℤ × List PyDatetime)),
    (d.map Prod.fst).Nodup →
    (((pairs.foldl (fun d p => pyDictInsert d p.1 p.2) d)).map
      Prod.fst).Nodup := by
  intro pairs
  induction pairs with
  | nil => intro d hd; exact hd
  | cons p ps ih =>
    intro d hd
    rw [List.foldl_cons]
    refine ih (pyDictInsert d p.1 p.2) ?_
    rw [pyDictInsert_keys]
    by_cases hany : d.any (fun q => decide (q.1 = p.1)) = true
    · rw [if_pos hany]
      exact hd
    · rw [if_neg hany]
      have hnotmem : p.1 ∉ d.map Prod.fst := by
        intro hmem
        obtain ⟨q, hq, hq1⟩ := List.mem_map.mp hmem
        exact hany (List.any_eq_true.mpr ⟨q, hq, by simp [hq1]⟩)
      simp [List.nodup_append, hd, hnotmem]

/-- The keys of `pyDict pairs` are distinct. -/
lemma pyDict_keys_nodup (pairs : List (ℤ × List PyDatetime)) :
    ((pyDict pairs).map Prod.fst).Nodup :=
  pyDict_fold_keys_nodup pairs [] List.nodup_nil

/-- C6 counterexample: on `[2000-01, 2001-01, 2000-02]` the groupby scan
yields three adjacent runs, but `dict()` collapses them to two entries and
the entry for year 2000 is only the last run `[2000-02]` — the first run is
gone, so the grouping functions do not produce separate groups for each
adjacent run. -/
theorem group_datetimes_by_year_runs_collapsed :
    (pyGroupby (fun x => x.year)
      [⟨2000, 1⟩, ⟨2001, 1⟩, ⟨2000, 2⟩]).length = 3 ∧
    group_datetimes_by_year [⟨2000, 1⟩, ⟨2001, 1⟩, ⟨2000, 2⟩] =
      [(2000, [⟨2000, 2⟩]), (2001, [⟨2001, 1⟩])] :=
  ⟨rfl, rfl⟩

/-- C6 (amended): the groupby scan does produce a separate run for each
adjacent run of the key, but the `dict(...)` conversion keeps at most one
entry per key (the key lists are duplicate-free) and binds each key to its
**last** adjacent run — earlier runs of the same key are discarded, not
merged and not kept as separate groups.  This holds for both
`group_datetimes_by_year` and `group_datetimes_by_month`. -/
theorem group_datetimes_last_run (l : List PyDatetime) (months : List ℤ)
    (k : ℤ) :
    ((group_datetimes_by_year l).map Prod.fst).Nodup ∧
    ((group_datetimes_by_month l months).map Prod.fst).Nodup ∧
    ((group_datetimes_by_year l).find? (fun p => decide (p.1 = k))).map
        Prod.snd =
      (((pyGroupby (fun x => x.year) l).filter
        (fun p => decide (p.1 = k))).getLast?).map Prod.snd ∧
    ((group_datetimes_by_month l months).find?
        (fun p => decide (p.1 = k))).map Prod.snd =
      (((pyGroupby (fun x => x.month) l).filter
        (fun p => decide (p.1 = k))).getLast?).map Prod.snd :=
  ⟨pyDict_keys_nodup _, pyDict_keys_nodup _,
    pyDict_find? _ k, pyDict_find? _ k⟩

/-- C7 (code bug on line 64 of `src/dc_chunker.py`): combining two gridded
chunks that carry a time axis reindexes latitude descending and longitude
ascending, but the `indices['time']` entry is built by
`indices['time'] = sorted(combined_chunks.time.values),` — the trailing
comma makes it a one-element Python tuple containing the sorted list, so
`reindex` receives a nested sequence for the time dimension rather than the
ascending time values the claim requires. -/
theorem combine_time_indexer_bug :
    combine_geographic_chunks
      [⟨[1, 0], [10], some [1]⟩, ⟨[2], [11], some [0]⟩] =
      some ⟨[2, 1, 0], [10, 11], some (Indexer.tup [[0, 1]])⟩ ∧
    some (Indexer.tup [[0, 1]]) ≠ some (Indexer.vals [0, 1]) := by
  constructor
  · rfl
  · simp

end DcChunker
